import Mathlib

/-!
Verification of the `dingo-ode` solver core (package `solver`).

The Go code is shallowly embedded: `float64` values are modelled as exact
rationals `ℚ` (numeric literals keep their mathematical value, so the Go
literal `1e-8` becomes `1/100000000`), `[]float64` becomes `List ℚ`, a Go
function returning `(T, error)` becomes `Except String T`, and the unbounded
`for` loop of `StandardSolver.Solve` is given explicit fuel.  The `Recorder`
and `Controller` interactions of the solve loop are captured as an event
trace: the loop emits one `Ev.record` event per `r.Record(t, X)` call and one
`Ev.control` event per controller evaluation, in the order the Go loop
performs them; an accumulating `RecorderTimeSeries` is then the list of
`record` events appended to its starting series.
-/

namespace DingoOde

/-- State vector: Go `[]float64`. -/
abbrev Vec := List ℚ

/-- Go `solver.Function`: `func(t float64, X []float64) (dXdt []float64, err error)`. -/
abbrev Function := ℚ → Vec → Except String Vec

/-- Go `solver.Controller`: `func(t float64, X []float64) (bool, error)`. -/
abbrev Controller := ℚ → Vec → Bool × Option String

/-- Go `solver.Iteration`: one step of a standard solver. -/
abbrev Iteration := Function → ℚ → Vec → ℚ → Except String Vec

/-- Embedding of `StopAtTime` (controller.go): stop once `|t - tmax| ≥ 1e-8`
and `t > tmax`; the literal `1e-8` is taken at its mathematical value. -/
def StopAtTime (tmax : ℚ) : Controller := fun t _X =>
  let delta := |t - tmax|
  if delta < 1 / 100000000 ∨ t ≤ tmax then (false, none)
  else (true, none)

/-- The loop body of `MultiController` (controller.go): run the controllers in
order; a controller error returns `(true, err)` at once, a `true` verdict
returns `(true, nil)` at once, otherwise continue with the rest. -/
def multiLoop (t : ℚ) (X : Vec) : List Controller → Bool × Option String
  | [] => (false, none)
  | c :: rest =>
    match c t X with
    | (_, some e) => (true, some e)
    | (true, none) => (true, none)
    | (false, none) => multiLoop t X rest

/-- Embedding of `MultiController` (controller.go); the Go variadic argument
becomes a list. -/
def MultiController (controllers : List Controller) : Controller :=
  fun t X => multiLoop t X controllers

/-- Build the vector `[g 0, ..., g (n-1)]`: the Go pattern
`make([]float64, n)` followed by `for i := 0; i < n; i++ { v[i] = g(i) }`. -/
def vmake (n : Nat) (g : Nat → ℚ) : Vec := (List.range n).map g

/-- Embedding of `eulerIteration`: `Xs[i] = Xn[i] + h*slope[i]`. -/
def eulerIteration (f : Function) (tn : ℚ) (Xn : Vec) (h : ℚ) : Except String Vec :=
  match f tn Xn with
  | .error e => .error e
  | .ok slope => .ok (vmake Xn.length (fun i => Xn.getD i 0 + h * slope.getD i 0))

/-- Embedding of `rk2Iteration`: midpoint estimate `Xm = Xn + h*k1/2`, then
`Xs = Xn + h*f(tn+h/2, Xm)`. -/
def rk2Iteration (f : Function) (tn : ℚ) (Xn : Vec) (h : ℚ) : Except String Vec :=
  match f tn Xn with
  | .error e => .error e
  | .ok slope =>
    let Xm := vmake Xn.length (fun i => Xn.getD i 0 + h * slope.getD i 0 / 2)
    match f (tn + h / 2) Xm with
    | .error e => .error e
    | .ok slope2 => .ok (vmake Xn.length (fun i => Xn.getD i 0 + h * slope2.getD i 0))

/-- Embedding of `rk4Iteration` (solver.go): the four stages k1..k4 and the
weighted average `Xs = Xn + (k1 + 2*k2 + 2*k3 + k4)/6`; any failing stage
returns that error at once. -/
def rk4Iteration (f : Function) (tn : ℚ) (Xn : Vec) (h : ℚ) : Except String Vec :=
  match f tn Xn with
  | .error e => .error e
  | .ok slope1 =>
    let k1 := vmake Xn.length (fun i => h * slope1.getD i 0)
    let Xm1 := vmake Xn.length (fun i => Xn.getD i 0 + k1.getD i 0 / 2)
    match f (tn + h / 2) Xm1 with
    | .error e => .error e
    | .ok slope2 =>
      let k2 := vmake Xn.length (fun i => h * slope2.getD i 0)
      let Xm2 := vmake Xn.length (fun i => Xn.getD i 0 + k2.getD i 0 / 2)
      match f (tn + h / 2) Xm2 with
      | .error e => .error e
      | .ok slope3 =>
        let k3 := vmake Xn.length (fun i => h * slope3.getD i 0)
        let Xm3 := vmake Xn.length (fun i => Xn.getD i 0 + k3.getD i 0)
        match f (tn + h) Xm3 with
        | .error e => .error e
        | .ok slope4 =>
          let k4 := vmake Xn.length (fun i => h * slope4.getD i 0)
          .ok (vmake Xn.length (fun i =>
            Xn.getD i 0 +
              (k1.getD i 0 + 2 * k2.getD i 0 + 2 * k3.getD i 0 + k4.getD i 0) / 6))

/-- One element of a `TimeSeries` (a `(t, X)` sample). -/
structure TimeData where
  time : ℚ
  state : Vec
deriving DecidableEq, Inhabited

/-- Go `TimeSeries`: an append-only list of samples. -/
abbrev TimeSeries := List TimeData

/-- One observable action of the solve loop: a `Record` call or a controller
evaluation (with the verdict the controller returned). -/
inductive Ev where
  | record (t : ℚ) (X : Vec)
  | control (t : ℚ) (X : Vec) (stop : Bool) (err : Option String)
deriving DecidableEq

/-- The samples handed to the recorder during a run, in order. -/
def recordsOf (evs : List Ev) : TimeSeries :=
  evs.filterMap fun e =>
    match e with
    | .record t X => some ⟨t, X⟩
    | .control _ _ _ _ => none

/-- Semantics of `RecorderTimeSeries.Record` applied along a run: each
`Record(t, X)` call appends `TimeData{t, X}` to the series. -/
def recorderTimeSeriesRun (s0 : TimeSeries) (evs : List Ev) : TimeSeries :=
  s0 ++ recordsOf evs

/-- Result of the `for` loop of `Solve`: normal stop (with the committed state
`tm, Xm` and the iteration count), error return, or fuel exhaustion (the Go
loop would still be running). -/
inductive LoopResult where
  | finished (n : Nat) (t : ℚ) (X : Vec)
  | failed (n : Nat) (e : String)
  | outOfFuel
deriving DecidableEq

/-- The `for` loop of `StandardSolver.Solve` (solver.go lines 59-78), with
fuel.  Each pass computes `Xn`, records `(tn, Xn)`, evaluates the controller,
and on `stop=false` commits `(tn, Xn)` and increments the count. -/
def solveLoop (iter : Iteration) (f : Function) (c : Controller) (h : ℚ) :
    Nat → ℚ → Vec → Nat → List Ev × LoopResult
  | 0, _, _, _ => ([], .outOfFuel)
  | fuel + 1, tm, Xm, n =>
    match iter f tm Xm h with
    | .error e => ([], .failed n e)
    | .ok Xn =>
      let tn := tm + h
      match c tn Xn with
      | (stop, some e) => ([.record tn Xn, .control tn Xn stop (some e)], .failed n e)
      | (true, none) => ([.record tn Xn, .control tn Xn true none], .finished n tm Xm)
      | (false, none) =>
        let rest := solveLoop iter f c h fuel tn Xn (n + 1)
        (.record tn Xn :: .control tn Xn false none :: rest.1, rest.2)

/-- Go `StandardSolver`: the retained result state and the iteration
strategy. -/
structure StandardSolver where
  t : ℚ
  X : Vec
  iteration : Iteration

/-- Observable outcome of one `Solve` call: `(nbIterations, nil)`,
`(nbIterations, err)`, or non-termination within the fuel. -/
inductive Outcome where
  | ok (n : Nat)
  | err (n : Nat) (e : String)
  | outOfFuel
deriving DecidableEq

/-- Embedding of `StandardSolver.Solve`: nil `f` is rejected, `(t0, X0)` is
recorded unconditionally, then the loop runs; on normal stop the solver state
becomes the last committed `(tm, Xm)`, on error it is left unchanged.  Returns
the event trace, the solver after the call, and the outcome. -/
def StandardSolver.Solve (solver : StandardSolver) (f : Option Function) (t0 : ℚ)
    (X0 : Vec) (h : ℚ) (c : Controller) (fuel : Nat) :
    List Ev × StandardSolver × Outcome :=
  match f with
  | none => ([], solver, .err 0 "ERR: the function f is not defined")
  | some f =>
    match solveLoop solver.iteration f c h fuel t0 X0 0 with
    | (evs, .finished n tm Xm) =>
      (.record t0 X0 :: evs, { solver with t := tm, X := Xm }, .ok n)
    | (evs, .failed n e) => (.record t0 X0 :: evs, solver, .err n e)
    | (evs, .outOfFuel) => (.record t0 X0 :: evs, solver, .outOfFuel)

/-- Embedding of `StandardSolver.Result`. -/
def StandardSolver.Result (solver : StandardSolver) : ℚ × Vec :=
  (solver.t, solver.X)

/-- Componentwise sum of two state vectors (spec-side vector algebra). -/
def vadd (a b : Vec) : Vec := List.zipWith (· + ·) a b

/-- Scalar multiple of a state vector (spec-side vector algebra). -/
def smul (r : ℚ) (a : Vec) : Vec := a.map (r * ·)

/-- Modelled from the spec (§4.4): the classical RK4 update written exactly as
the spec's four-stage formula, propagating the error of a failing stage. -/
def rk4Spec (f : Function) (tn : ℚ) (Xn : Vec) (h : ℚ) : Except String Vec := do
  let k1 := smul h (← f tn Xn)
  let k2 := smul h (← f (tn + h / 2) (vadd Xn (smul (1 / 2) k1)))
  let k3 := smul h (← f (tn + h / 2) (vadd Xn (smul (1 / 2) k2)))
  let k4 := smul h (← f (tn + h) (vadd Xn k3))
  return vadd Xn (smul (1 / 6) (vadd k1 (vadd (smul 2 k2) (vadd (smul 2 k3) k4))))

/-- Outcome of a CSV export.  File creation and writing are not modelled; what
matters to the claims is whether the precondition checks pass, fail with an
error, or are never reached because of a runtime panic. -/
inductive CsvOutcome where
  | ok
  | err (msg : String)
  | panicked
deriving DecidableEq

/-- Embedding of `TimeSeries.ToCSVwithNames`: an empty series is rejected with
"the timeseries has no data", then a name count different from the state
dimension of the first sample is rejected. -/
def TimeSeries.ToCSVwithNames (series : TimeSeries) (names : List String) : CsvOutcome :=
  match series with
  | [] => .err "the timeseries has no data"
  | d0 :: _ =>
    if names.length ≠ d0.state.length then
      .err "the names does not match with the state dimension"
    else .ok

/-- Embedding of `TimeSeries.ToCSV`: it builds the default names from
`len(series[0].state)` BEFORE any emptiness check, so on an empty series the
Go code panics with an index-out-of-range runtime error instead of returning
an error value. -/
def TimeSeries.ToCSV (series : TimeSeries) : CsvOutcome :=
  match series with
  | [] => .panicked
  | d0 :: _ =>
    TimeSeries.ToCSVwithNames series
      ((List.range d0.state.length).map (fun j => "x" ++ toString j))

/-- The `(t, X)` arguments of the controller evaluations of a run, in order. -/
def controlsOf (evs : List Ev) : List (ℚ × Vec) :=
  evs.filterMap fun e =>
    match e with
    | .control t X _ _ => some (t, X)
    | .record _ _ => none

/-- Number of loop passes a `StopAtTime tmax` run performs from time `tm`:
the least `k` with `tm + k*h ≥ tmax + 1e-8`. -/
def stepsUntil (tm tmax h : ℚ) : ℕ :=
  (⌈(tmax + 1 / 100000000 - tm) / h⌉).toNat

/-- Concrete derivative with constant slope 1, used in concrete runs. -/
def fone : Function := fun _ _ => Except.ok [1]

/-- Concrete derivative failing from t = 2 on, used in concrete runs. -/
def fboom : Function := fun t _X => if t < 2 then Except.ok [1] else Except.error "boom"

/-- Fresh solver with state (0, []) and the Euler iteration strategy. -/
def solver0 : StandardSolver := ⟨0, [], eulerIteration⟩

/-! ## Helper lemmas -/

/-- One Euler step on a one-dimensional state with a successful slope. -/
theorem euler_step_ok {f : Function} {t x s h : ℚ} (hf : f t [x] = Except.ok [s]) :
    eulerIteration f t [x] h = Except.ok [x + h * s] := by
  unfold eulerIteration
  rw [hf]
  show Except.ok (vmake 1 fun i => [x].getD i 0 + h * List.getD [s] i 0)
    = Except.ok [x + h * s]
  simp [vmake, show List.range 1 = [0] from rfl]

/-- The second component of a `StopAtTime` verdict is always `nil`. -/
theorem stopAtTime_err_none (tmax t : ℚ) (X : Vec) : (StopAtTime tmax t X).2 = none := by
  simp only [StopAtTime]
  split_ifs <;> rfl

/-- A `StopAtTime tmax` controller continues exactly while `t < tmax + 1e-8`. -/
theorem stopAtTime_verdict (tmax t : ℚ) (X : Vec) :
    StopAtTime tmax t X = (decide (tmax + 1 / 100000000 ≤ t), none) := by
  simp only [StopAtTime]
  rcases le_or_lt t tmax with hle | hlt
  · rw [if_pos (Or.inr hle), decide_eq_false (by linarith)]
  · rcases lt_or_le (t - tmax) (1 / 100000000) with hd | hd
    · rw [if_pos (Or.inl (by rwa [abs_of_pos (by linarith)])), decide_eq_false (by linarith)]
    · rw [if_neg, decide_eq_true (by linarith)]
      push_neg
      exact ⟨by rw [abs_of_pos (by linarith)]; linarith, by linarith⟩

/-- Length of a `vmake` vector. -/
theorem vmake_length (n : Nat) (g : Nat → ℚ) : (vmake n g).length = n := by
  simp [vmake]

/-- Length of a `smul` vector. -/
theorem smul_length (r : ℚ) (a : Vec) : (smul r a).length = a.length := by
  simp [smul]

/-- Length of a `vadd` vector. -/
theorem vadd_length (a b : Vec) : (vadd a b).length = min a.length b.length := by
  simp [vadd]

/-- The Go loop `k[i] = r*s[i]` over `n = len(s)` entries builds `smul r s`. -/
theorem vmake_smul (r : ℚ) (s : Vec) (n : Nat) (hlen : s.length = n) :
    vmake n (fun i => r * s.getD i 0) = smul r s := by
  subst hlen
  apply List.ext_getElem
  · simp [vmake, smul]
  · intro i h1 h2
    have hs : i < s.length := by simpa [vmake] using h1
    simp [vmake, smul, List.getD_eq_getElem s 0 hs, List.getElem?_eq_getElem hs]

/-- The Go loop `Xm[i] = Xn[i] + k[i]/2` builds `Xn + k/2` in spec algebra. -/
theorem vmake_half_step (Xn k : Vec) (n : Nat) (hX : Xn.length = n) (hk : k.length = n) :
    vmake n (fun i => Xn.getD i 0 + k.getD i 0 / 2) = vadd Xn (smul (1 / 2) k) := by
  apply List.ext_getElem
  · simp [vmake, vadd, smul, hX, hk]
  · intro i h1 h2
    have hi : i < n := by simpa [vmake] using h1
    have hXi : i < Xn.length := by omega
    have hki : i < k.length := by omega
    simp [vmake, vadd, smul, List.getElem?_eq_getElem hXi, List.getElem?_eq_getElem hki]
    ring

/-- The Go loop `Xm[i] = Xn[i] + k[i]` builds `Xn + k` in spec algebra. -/
theorem vmake_full_step (Xn k : Vec) (n : Nat) (hX : Xn.length = n) (hk : k.length = n) :
    vmake n (fun i => Xn.getD i 0 + k.getD i 0) = vadd Xn k := by
  apply List.ext_getElem
  · simp [vmake, vadd, hX, hk]
  · intro i h1 h2
    have hi : i < n := by simpa [vmake] using h1
    have hXi : i < Xn.length := by omega
    have hki : i < k.length := by omega
    simp [vmake, vadd, List.getElem?_eq_getElem hXi, List.getElem?_eq_getElem hki]

/-- The Go loop `Xs[i] = Xn[i] + (k1[i]+2*k2[i]+2*k3[i]+k4[i])/6` builds the
spec's weighted average. -/
theorem vmake_weighted (Xn k1 k2 k3 k4 : Vec) (n : Nat) (hX : Xn.length = n)
    (h1 : k1.length = n) (h2 : k2.length = n) (h3 : k3.length = n) (h4 : k4.length = n) :
    vmake n (fun i =>
        Xn.getD i 0 +
          (k1.getD i 0 + 2 * k2.getD i 0 + 2 * k3.getD i 0 + k4.getD i 0) / 6)
      = vadd Xn (smul (1 / 6) (vadd k1 (vadd (smul 2 k2) (vadd (smul 2 k3) k4)))) := by
  apply List.ext_getElem
  · simp [vmake, vadd, smul, hX, h1, h2, h3, h4]
  · intro i hi1 hi2
    have hi : i < n := by simpa [vmake] using hi1
    have hXi : i < Xn.length := by omega
    have hk1 : i < k1.length := by omega
    have hk2 : i < k2.length := by omega
    have hk3 : i < k3.length := by omega
    have hk4 : i < k4.length := by omega
    simp [vmake, vadd, smul, List.getElem?_eq_getElem hXi, List.getElem?_eq_getElem hk1,
      List.getElem?_eq_getElem hk2, List.getElem?_eq_getElem hk3, List.getElem?_eq_getElem hk4]
    ring

/-- Controllers that all vote `(false, nil)` at `(t, X)` are passed over by the
`MultiController` loop. -/
theorem multiLoop_skip (t : ℚ) (X : Vec) (pre rest : List Controller)
    (hpre : ∀ c ∈ pre, c t X = (false, none)) :
    multiLoop t X (pre ++ rest) = multiLoop t X rest := by
  induction pre with
  | nil => rfl
  | cons c pre ih =>
    have hc := hpre c (List.mem_cons_self c pre)
    simp only [List.cons_append, multiLoop, hc]
    exact ih fun c' hc' => hpre c' (List.mem_cons_of_mem c hc')

/-- Unfolding of the solve loop when the iteration step fails. -/
theorem solveLoop_succ_err {iter : Iteration} {f : Function} {c : Controller} {h : ℚ}
    {fuel : Nat} {tm : ℚ} {Xm : Vec} {n : Nat} {e : String}
    (hit : iter f tm Xm h = .error e) :
    solveLoop iter f c h (fuel + 1) tm Xm n = ([], .failed n e) := by
  simp [solveLoop, hit]

/-- Unfolding of the solve loop when the controller reports an error. -/
theorem solveLoop_succ_ctlerr {iter : Iteration} {f : Function} {c : Controller} {h : ℚ}
    {fuel : Nat} {tm : ℚ} {Xm Xn : Vec} {n : Nat} {stop : Bool} {e : String}
    (hit : iter f tm Xm h = .ok Xn) (hc : c (tm + h) Xn = (stop, some e)) :
    solveLoop iter f c h (fuel + 1) tm Xm n =
      ([.record (tm + h) Xn, .control (tm + h) Xn stop (some e)], .failed n e) := by
  simp [solveLoop, hit, hc]

/-- Unfolding of the solve loop when the controller stops normally. -/
theorem solveLoop_succ_stop {iter : Iteration} {f : Function} {c : Controller} {h : ℚ}
    {fuel : Nat} {tm : ℚ} {Xm Xn : Vec} {n : Nat}
    (hit : iter f tm Xm h = .ok Xn) (hc : c (tm + h) Xn = (true, none)) :
    solveLoop iter f c h (fuel + 1) tm Xm n =
      ([.record (tm + h) Xn, .control (tm + h) Xn true none], .finished n tm Xm) := by
  simp [solveLoop, hit, hc]

/-- Unfolding of the solve loop when the controller lets the run continue. -/
theorem solveLoop_succ_cont {iter : Iteration} {f : Function} {c : Controller} {h : ℚ}
    {fuel : Nat} {tm : ℚ} {Xm Xn : Vec} {n : Nat}
    (hit : iter f tm Xm h = .ok Xn) (hc : c (tm + h) Xn = (false, none)) :
    solveLoop iter f c h (fuel + 1) tm Xm n =
      (.record (tm + h) Xn :: .control (tm + h) Xn false none ::
          (solveLoop iter f c h fuel (tm + h) Xn (n + 1)).1,
        (solveLoop iter f c h fuel (tm + h) Xn (n + 1)).2) := by
  simp [solveLoop, hit, hc]

/-- Times of the samples recorded by the solve loop started at `tm`: the
`i`-th recorded sample (0-based) is at time `tm + (i+1)*h`, whatever the
outcome of the run. -/
theorem solveLoop_rec_times (iter : Iteration) (f : Function) (c : Controller) (h : ℚ) :
    ∀ (fuel : Nat) (tm : ℚ) (Xm : Vec) (n i : Nat),
      i < (recordsOf (solveLoop iter f c h fuel tm Xm n).1).length →
      ((recordsOf (solveLoop iter f c h fuel tm Xm n).1).getD i default).time
        = tm + ((i : ℚ) + 1) * h := by
  intro fuel
  induction fuel with
  | zero =>
    intro tm Xm n i hi
    simp [solveLoop, recordsOf] at hi
  | succ fuel ih =>
    intro tm Xm n i hi
    cases hit : iter f tm Xm h with
    | error e =>
      rw [solveLoop_succ_err hit] at hi
      simp [recordsOf] at hi
    | ok Xn =>
      rcases hc : c (tm + h) Xn with ⟨stop, err⟩
      cases err with
      | some e =>
        rw [solveLoop_succ_ctlerr hit hc] at hi ⊢
        cases i with
        | zero => simp [recordsOf]
        | succ j => simp [recordsOf] at hi
      | none =>
        cases stop with
        | true =>
          rw [solveLoop_succ_stop hit hc] at hi ⊢
          cases i with
          | zero => simp [recordsOf]
          | succ j => simp [recordsOf] at hi
        | false =>
          rw [solveLoop_succ_cont hit hc] at hi ⊢
          simp only [recordsOf, List.filterMap_cons] at hi ⊢
          cases i with
          | zero => simp
          | succ j =>
            simp only [List.length_cons, Nat.add_lt_add_iff_right] at hi
            simp only [List.getD_cons_succ]
            have := ih (tm + h) Xn (n + 1) j (by simpa [recordsOf] using hi)
            simp only [recordsOf] at this
            rw [this]
            push_cast
            ring

/-- Structure of a successful solve-loop run from `(tm, Xm)` with starting
count `n`: it committed `n' - n` further states, recorded `n' - n + 1`
samples, stopped at the state `tm + (n'-n)*h`, and that final committed state
is entry `n' - n` of the series extended with the starting sample. -/
theorem solveLoop_finished (iter : Iteration) (f : Function) (c : Controller) (h : ℚ) :
    ∀ (fuel : Nat) (tm : ℚ) (Xm : Vec) (n : Nat) (evs : List Ev) (n' : Nat) (t' : ℚ) (X' : Vec),
      solveLoop iter f c h fuel tm Xm n = (evs, .finished n' t' X') →
      n ≤ n' ∧ (recordsOf evs).length = n' - n + 1 ∧
        t' = tm + ((n' - n : ℕ) : ℚ) * h ∧
        (TimeData.mk tm Xm :: recordsOf evs).getD (n' - n) default = ⟨t', X'⟩ := by
  intro fuel
  induction fuel with
  | zero =>
    intro tm Xm n evs n' t' X' heq
    simp [solveLoop] at heq
  | succ fuel ih =>
    intro tm Xm n evs n' t' X' heq
    cases hit : iter f tm Xm h with
    | error e =>
      rw [solveLoop_succ_err hit] at heq
      simp at heq
    | ok Xn =>
      rcases hc : c (tm + h) Xn with ⟨stop, err⟩
      cases err with
      | some e =>
        rw [solveLoop_succ_ctlerr hit hc] at heq
        simp at heq
      | none =>
        cases stop with
        | true =>
          rw [solveLoop_succ_stop hit hc] at heq
          simp only [Prod.mk.injEq, LoopResult.finished.injEq] at heq
          obtain ⟨hevs, hn, ht, hX⟩ := heq
          subst hevs hn ht hX
          refine ⟨le_refl n, ?_, ?_, ?_⟩ <;> simp [recordsOf]
        | false =>
          rw [solveLoop_succ_cont hit hc] at heq
          rcases hrest : solveLoop iter f c h fuel (tm + h) Xn (n + 1) with ⟨evs2, res⟩
          rw [hrest] at heq
          simp only [Prod.mk.injEq] at heq
          obtain ⟨hevs, hres⟩ := heq
          subst hevs
          obtain ⟨hle, hlen, ht, hD⟩ :=
            ih (tm + h) Xn (n + 1) evs2 n' t' X' (by rw [hrest, hres])
          have hk : n' - n = (n' - (n + 1)) + 1 := by omega
          refine ⟨by omega, ?_, ?_, ?_⟩
          · simp only [recordsOf, List.filterMap_cons] at hlen ⊢
            simp only [List.length_cons]
            rw [show (List.filterMap _ evs2).length = n' - (n + 1) + 1 from hlen, hk]
          · rw [ht, hk]
            push_cast
            ring
          · rw [hk]
            simp only [recordsOf, List.filterMap_cons] at hD ⊢
            simpa [List.getD_cons_succ] using hD

/-- Structure of a failing solve-loop run: either the iteration step failed
when applied to the last committed state (and the failing step recorded
nothing), or the controller reported an error on the last recorded sample. -/
theorem solveLoop_failed (iter : Iteration) (f : Function) (c : Controller) (h : ℚ) :
    ∀ (fuel : Nat) (tm : ℚ) (Xm : Vec) (n : Nat) (evs : List Ev) (n' : Nat) (e : String),
      solveLoop iter f c h fuel tm Xm n = (evs, .failed n' e) →
      n ≤ n' ∧
      (((recordsOf evs).length = n' - n ∧
          iter f (tm + ((n' - n : ℕ) : ℚ) * h)
            ((TimeData.mk tm Xm :: recordsOf evs).getD (n' - n) default).state h
            = .error e) ∨
        ((recordsOf evs).length = n' - n + 1 ∧
          ∃ s, c (tm + ((n' - n + 1 : ℕ) : ℚ) * h)
            ((recordsOf evs).getD (n' - n) default).state = (s, some e))) := by
  intro fuel
  induction fuel with
  | zero =>
    intro tm Xm n evs n' e heq
    simp [solveLoop] at heq
  | succ fuel ih =>
    intro tm Xm n evs n' e heq
    cases hit : iter f tm Xm h with
    | error e2 =>
      rw [solveLoop_succ_err hit] at heq
      simp only [Prod.mk.injEq, LoopResult.failed.injEq] at heq
      obtain ⟨hevs, hn, he⟩ := heq
      subst hevs hn he
      refine ⟨le_refl n, Or.inl ⟨by simp [recordsOf], ?_⟩⟩
      simpa [recordsOf] using hit
    | ok Xn =>
      rcases hc : c (tm + h) Xn with ⟨stop, err⟩
      cases err with
      | some e2 =>
        rw [solveLoop_succ_ctlerr hit hc] at heq
        simp only [Prod.mk.injEq, LoopResult.failed.injEq] at heq
        obtain ⟨hevs, hn, he⟩ := heq
        subst hevs hn he
        refine ⟨le_refl n, Or.inr ⟨by simp [recordsOf], stop, ?_⟩⟩
        simpa [recordsOf] using hc
      | none =>
        cases stop with
        | true =>
          rw [solveLoop_succ_stop hit hc] at heq
          simp at heq
        | false =>
          rw [solveLoop_succ_cont hit hc] at heq
          rcases hrest : solveLoop iter f c h fuel (tm + h) Xn (n + 1) with ⟨evs2, res⟩
          rw [hrest] at heq
          simp only [Prod.mk.injEq] at heq
          obtain ⟨hevs, hres⟩ := heq
          subst hevs
          obtain ⟨hle, hcase⟩ := ih (tm + h) Xn (n + 1) evs2 n' e (by rw [hrest, hres])
          have hk : n' - n = (n' - (n + 1)) + 1 := by omega
          refine ⟨by omega, ?_⟩
          rcases hcase with ⟨hlen, hiter⟩ | ⟨hlen, s, hctl⟩
          · left
            constructor
            · simp only [recordsOf, List.filterMap_cons] at hlen ⊢
              simp only [List.length_cons]
              rw [show (List.filterMap _ evs2).length = n' - (n + 1) from hlen, hk]
            · have htime : tm + ((n' - n : ℕ) : ℚ) * h
                  = (tm + h) + ((n' - (n + 1) : ℕ) : ℚ) * h := by
                rw [hk]
                push_cast
                ring
              rw [htime, hk]
              simp only [recordsOf, List.filterMap_cons] at hiter ⊢
              simpa [List.getD_cons_succ] using hiter
          · right
            refine ⟨?_, s, ?_⟩
            · simp only [recordsOf, List.filterMap_cons] at hlen ⊢
              simp only [List.length_cons]
              rw [show (List.filterMap _ evs2).length = n' - (n + 1) + 1 from hlen, hk]
            · have htime : tm + ((n' - n + 1 : ℕ) : ℚ) * h
                  = (tm + h) + ((n' - (n + 1) + 1 : ℕ) : ℚ) * h := by
                rw [hk]
                push_cast
                ring
              rw [htime, hk]
              simp only [recordsOf, List.filterMap_cons] at hctl ⊢
              simpa [List.getD_cons_succ] using hctl

/-- A `StopAtTime` run that has not yet reached the stop boundary needs at
least one more loop pass. -/
theorem stepsUntil_pos {tm tmax h : ℚ} (hh : 0 < h) (htm : tm < tmax + 1 / 100000000) :
    1 ≤ stepsUntil tm tmax h := by
  unfold stepsUntil
  have hpos : (0 : ℚ) < (tmax + 1 / 100000000 - tm) / h := div_pos (by linarith) hh
  have h1 : (0 : ℤ) < ⌈(tmax + 1 / 100000000 - tm) / h⌉ := Int.ceil_pos.mpr hpos
  omega

/-- One loop pass reduces the remaining `StopAtTime` pass count by one. -/
theorem stepsUntil_succ {tm tmax h : ℚ} (hh : 0 < h) (_htm : tm < tmax + 1 / 100000000)
    (hcont : tm + h < tmax + 1 / 100000000) :
    stepsUntil tm tmax h = stepsUntil (tm + h) tmax h + 1 := by
  unfold stepsUntil
  have hdiv : (tmax + 1 / 100000000 - (tm + h)) / h
      = (tmax + 1 / 100000000 - tm) / h - 1 := by
    field_simp
    ring
  rw [hdiv, Int.ceil_sub_one]
  have h2 : (0 : ℤ) < ⌈(tmax + 1 / 100000000 - (tm + h)) / h⌉ :=
    Int.ceil_pos.mpr (div_pos (by linarith) hh)
  rw [hdiv, Int.ceil_sub_one] at h2
  omega

/-- A solve loop driven by `StopAtTime tmax` with a never-failing iteration
finishes, taking exactly `stepsUntil tm tmax h` passes (so committing one step
fewer), provided the fuel covers them. -/
theorem solveLoop_stopAtTime (iter : Iteration) (f : Function) (h tmax : ℚ)
    (hh : 0 < h) (hf : ∀ t X, ∃ Y, iter f t X h = Except.ok Y) :
    ∀ (fuel : Nat) (tm : ℚ) (Xm : Vec) (n : Nat),
      tm < tmax + 1 / 100000000 →
      stepsUntil tm tmax h ≤ fuel →
      ∃ evs t' X',
        solveLoop iter f (StopAtTime tmax) h fuel tm Xm n
          = (evs, .finished (n + (stepsUntil tm tmax h - 1)) t' X') := by
  intro fuel
  induction fuel with
  | zero =>
    intro tm Xm n htm hfuel
    have := stepsUntil_pos hh htm
    omega
  | succ fuel ih =>
    intro tm Xm n htm hfuel
    obtain ⟨Xn, hit⟩ := hf tm Xm
    rcases le_or_lt (tmax + 1 / 100000000) (tm + h) with hstop | hcont
    · have hK : stepsUntil tm tmax h = 1 := by
        unfold stepsUntil
        have h1 : ⌈(tmax + 1 / 100000000 - tm) / h⌉ = 1 := by
          rw [Int.ceil_eq_iff]
          constructor
          · push_cast
            have : (0 : ℚ) < (tmax + 1 / 100000000 - tm) / h := div_pos (by linarith) hh
            linarith
          · push_cast
            rw [div_le_one hh]
            linarith
        rw [h1]
        rfl
      have hcstop : StopAtTime tmax (tm + h) Xn = (true, none) := by
        rw [stopAtTime_verdict, decide_eq_true hstop]
      refine ⟨[.record (tm + h) Xn, .control (tm + h) Xn true none], tm, Xm, ?_⟩
      rw [solveLoop_succ_stop hit hcstop, hK]
      rfl

    · have hcgo : StopAtTime tmax (tm + h) Xn = (false, none) := by
        rw [stopAtTime_verdict, decide_eq_false (by linarith)]
      have hK := stepsUntil_succ hh htm hcont
      have hK2 := stepsUntil_pos hh hcont
      obtain ⟨evs2, t', X', hrec⟩ := ih (tm + h) Xn (n + 1) hcont (by omega)
      refine ⟨.record (tm + h) Xn :: .control (tm + h) Xn false none :: evs2, t', X', ?_⟩
      rw [solveLoop_succ_cont hit hcgo, hrec]
      have hcount : n + 1 + (stepsUntil (tm + h) tmax h - 1)
          = n + (stepsUntil tm tmax h - 1) := by omega
      rw [hcount]

/-! ## Claims -/

/-- C4: the controller produced by `StopAtTime(tmax)` returns `(false, nil)`
whenever `t ≤ tmax` or `|t − tmax|` is below the `1e-8` tolerance, returns
`(true, nil)` once `t` exceeds `tmax` by more than that tolerance, and never
returns an error. -/
theorem stopAtTime_spec (tmax t : ℚ) (X : Vec) :
    ((t ≤ tmax ∨ |t - tmax| < 1 / 100000000) → StopAtTime tmax t X = (false, none)) ∧
    (1 / 100000000 < t - tmax → StopAtTime tmax t X = (true, none)) ∧
    (StopAtTime tmax t X).2 = none := by
  simp only [StopAtTime]
  refine ⟨fun hc => ?_, fun hc => ?_, ?_⟩
  · rw [if_pos (Or.symm hc)]
  · rw [if_neg]
    push_neg
    refine ⟨?_, by linarith⟩
    rw [abs_of_pos (by linarith)]
    linarith
  · split_ifs <;> rfl

/-- Witness for `stopAtTime_spec` at concrete inputs. -/
theorem stopAtTime_spec_witness :
    StopAtTime 1 0 [] = (false, none) ∧ StopAtTime 1 2 [] = (true, none) :=
  ⟨(stopAtTime_spec 1 0 []).1 (Or.inl (by norm_num)),
   (stopAtTime_spec 1 2 []).2.1 (by norm_num)⟩

/-- C6: the aggregate controller evaluates the sub-controllers in the given
order: if all return `(false, nil)` it returns `(false, nil)`; after a prefix
of `(false, nil)` votes, a sub-controller returning an error makes the
aggregate return `(true, that error)` and a sub-controller returning
`stop=true` (no error) makes it return `(true, nil)`, in both cases
independently of (so without evaluating) the remaining sub-controllers. -/
theorem multiController_spec (t : ℚ) (X : Vec) :
    (∀ cs : List Controller, (∀ c ∈ cs, c t X = (false, none)) →
      MultiController cs t X = (false, none)) ∧
    (∀ (pre : List Controller) (c : Controller) (rest : List Controller),
      (∀ c' ∈ pre, c' t X = (false, none)) →
      (∀ s e, c t X = (s, some e) →
        MultiController (pre ++ c :: rest) t X = (true, some e)) ∧
      (c t X = (true, none) →
        MultiController (pre ++ c :: rest) t X = (true, none))) := by
  constructor
  · intro cs hall
    have := multiLoop_skip t X cs [] hall
    simpa [MultiController, multiLoop] using this
  · intro pre c rest hpre
    constructor
    · intro s e hce
      simp only [MultiController, multiLoop_skip t X pre (c :: rest) hpre, multiLoop, hce]
    · intro hct
      simp only [MultiController, multiLoop_skip t X pre (c :: rest) hpre, multiLoop, hct]

/-- Witness for `multiController_spec`: the spec's P6 instances, an aggregate
of [AlwaysStop, NeverStop] stops normally and an aggregate of
[NeverStop, ErrorController] reports the error. -/
theorem multiController_spec_witness :
    MultiController [fun _ _ => (true, none), fun _ _ => (false, none)] 0 [] = (true, none) ∧
    MultiController [fun _ _ => (false, none), fun _ _ => (false, some "diverged")] 0 []
      = (true, some "diverged") := by
  constructor
  · exact ((multiController_spec 0 []).2 [] (fun _ _ => (true, none))
      [fun _ _ => (false, none)] (fun c' hc' => absurd hc' (List.not_mem_nil c'))).2 rfl
  · exact ((multiController_spec 0 []).2 [fun _ _ => (false, none)]
      (fun _ _ => (false, some "diverged")) []
      (by intro c' hc'; rw [List.mem_singleton] at hc'; subst hc'; rfl)).1
      false "diverged" rfl

/-- C10 (behavior at the failing input): exporting an empty `TimeSeries`
returns the "no data" error through `ToCSVwithNames`, but `ToCSV` reaches the
out-of-range access `series[0].state` before any emptiness check and panics
instead of returning a non-nil error. -/
theorem toCSV_empty_behavior :
    TimeSeries.ToCSV ([] : TimeSeries) = CsvOutcome.panicked ∧
    ∀ names : List String,
      TimeSeries.ToCSVwithNames ([] : TimeSeries) names
        = CsvOutcome.err "the timeseries has no data" :=
  ⟨rfl, fun _ => rfl⟩

/-- C5: for a derivative function whose successful outputs always match the
input dimension, `rk4Iteration` returns exactly the spec formula
`Xn + (k1 + 2*k2 + 2*k3 + k4)/6` with the four stages evaluated at the spec's
points, and returns the error of the first failing stage (no partial
update): it coincides with the spec-side `rk4Spec` on every input. -/
theorem rk4Iteration_spec (f : Function) (tn : ℚ) (Xn : Vec) (h : ℚ)
    (hdim : ∀ t X Y, f t X = Except.ok Y → Y.length = X.length) :
    rk4Iteration f tn Xn h = rk4Spec f tn Xn h := by
  cases hf1 : f tn Xn with
  | error e => simp [rk4Iteration, rk4Spec, hf1, Bind.bind, Except.bind]
  | ok slope1 =>
    have hl1 : slope1.length = Xn.length := hdim _ _ _ hf1
    simp only [rk4Iteration, rk4Spec, hf1, Bind.bind, Except.bind]
    rw [vmake_smul h slope1 Xn.length hl1,
      vmake_half_step Xn (smul h slope1) Xn.length rfl (by rw [smul_length, hl1])]
    cases hf2 : f (tn + h / 2) (vadd Xn (smul (1 / 2) (smul h slope1))) with
    | error e => simp
    | ok slope2 =>
      have hl2 : slope2.length = Xn.length := by
        have := hdim _ _ _ hf2
        rwa [vadd_length, smul_length, smul_length, hl1, min_self] at this
      simp only
      rw [vmake_smul h slope2 Xn.length hl2,
        vmake_half_step Xn (smul h slope2) Xn.length rfl (by rw [smul_length, hl2])]
      cases hf3 : f (tn + h / 2) (vadd Xn (smul (1 / 2) (smul h slope2))) with
      | error e => simp
      | ok slope3 =>
        have hl3 : slope3.length = Xn.length := by
          have := hdim _ _ _ hf3
          rwa [vadd_length, smul_length, smul_length, hl2, min_self] at this
        simp only
        rw [vmake_smul h slope3 Xn.length hl3,
          vmake_full_step Xn (smul h slope3) Xn.length rfl (by rw [smul_length, hl3])]
        cases hf4 : f (tn + h) (vadd Xn (smul h slope3)) with
        | error e => simp
        | ok slope4 =>
          have hl4 : slope4.length = Xn.length := by
            have := hdim _ _ _ hf4
            rwa [vadd_length, smul_length, hl3, min_self] at this
          simp only
          rw [vmake_smul h slope4 Xn.length hl4,
            vmake_weighted Xn (smul h slope1) (smul h slope2) (smul h slope3)
              (smul h slope4) Xn.length rfl (by rw [smul_length, hl1])
              (by rw [smul_length, hl2]) (by rw [smul_length, hl3])
              (by rw [smul_length, hl4])]
          rfl

/-- Witness for `rk4Iteration_spec` at a concrete derivative function. -/
theorem rk4Iteration_spec_witness :
    rk4Iteration (fun t X => Except.ok (X.map (fun x => x + t))) 0 [1] 1
      = rk4Spec (fun t X => Except.ok (X.map (fun x => x + t))) 0 [1] 1 :=
  rk4Iteration_spec _ 0 [1] 1 (fun t X Y hY => by
    injection hY with hY
    subst hY
    simp)

/-- C1: a `Solve` call that returns a nil error leaves in the solver, exposed
by `Result()`, the last committed `(t, X)` pair — entry `n` of the recorded
series, not the stop-triggering sample at entry `n+1` — and the returned
iteration count `n` equals the number of committed steps beyond the initial
sample (the series has `n + 2` entries: the initial sample, `n` committed
steps, and the stop-triggering sample). -/
theorem solve_success_result (solver : StandardSolver) (f : Function) (t0 : ℚ) (X0 : Vec)
    (h : ℚ) (c : Controller) (fuel : Nat) (evs : List Ev) (s2 : StandardSolver) (n : Nat)
    (hrun : solver.Solve (some f) t0 X0 h c fuel = (evs, s2, .ok n)) :
    (recordsOf evs).length = n + 2 ∧
    s2.Result = (s2.t, s2.X) ∧
    s2.t = t0 + (n : ℚ) * h ∧
    (recordsOf evs).getD n default = ⟨s2.t, s2.X⟩ ∧
    ((recordsOf evs).getD (n + 1) default).time = t0 + ((n : ℚ) + 1) * h := by
  simp only [StandardSolver.Solve] at hrun
  rcases hloop : solveLoop solver.iteration f c h fuel t0 X0 0 with ⟨evs2, res⟩
  rw [hloop] at hrun
  cases res with
  | finished n2 tm Xm =>
    simp only [Prod.mk.injEq, Outcome.ok.injEq] at hrun
    obtain ⟨hevs, hs2, hn⟩ := hrun
    subst hevs
    obtain ⟨-, hlen, ht, hD⟩ := solveLoop_finished solver.iteration f c h fuel t0 X0 0
      evs2 n2 tm Xm hloop
    simp only [Nat.sub_zero] at hlen ht hD
    rw [hn] at hlen ht hD
    have hrecs : recordsOf (Ev.record t0 X0 :: evs2) = TimeData.mk t0 X0 :: recordsOf evs2 := by
      simp [recordsOf]
    have hs2t : s2.t = tm := by rw [← hs2]
    have hs2X : s2.X = Xm := by rw [← hs2]
    refine ⟨?_, rfl, ?_, ?_, ?_⟩
    · rw [hrecs]
      simp [hlen]
    · rw [hs2t, ht]
    · rw [hrecs, hs2t, hs2X]
      exact hD
    · rw [hrecs, List.getD_cons_succ]
      have hbound : n < (recordsOf (solveLoop solver.iteration f c h fuel t0 X0 0).1).length := by
        rw [hloop]
        show n < (recordsOf evs2).length
        omega
      have htime := solveLoop_rec_times solver.iteration f c h fuel t0 X0 0 n hbound
      rw [hloop] at htime
      exact htime
  | failed n2 e => simp at hrun
  | outOfFuel => simp at hrun

/-- Canonical successful concrete run: Euler, constant slope 1, step 1, from
(0, [0]), stopped at tmax = 2 with 3 fuel: finishes with count 2, result
(2, [2]), and seven trace events. -/
theorem runEval :
    solver0.Solve (some fone) 0 [0] 1 (StopAtTime 2) 3
      = ([.record 0 [0], .record 1 [1], .control 1 [1] false none,
          .record 2 [2], .control 2 [2] false none,
          .record 3 [3], .control 3 [3] true none],
         StandardSolver.mk 2 [2] eulerIteration, .ok 2) := by
  have e1 : eulerIteration fone 0 [0] 1 = Except.ok [1] := by
    rw [euler_step_ok (show fone 0 [0] = Except.ok [1] from rfl)]
    norm_num
  have e2 : eulerIteration fone 1 [1] 1 = Except.ok [2] := by
    rw [euler_step_ok (show fone 1 [1] = Except.ok [1] from rfl)]
    norm_num
  have e3 : eulerIteration fone 2 [2] 1 = Except.ok [3] := by
    rw [euler_step_ok (show fone 2 [2] = Except.ok [1] from rfl)]
    norm_num
  have c1 : StopAtTime 2 (0 + 1) [1] = (false, none) := by
    rw [stopAtTime_verdict, decide_eq_false (by norm_num)]
  have c2 : StopAtTime 2 (1 + 1) [2] = (false, none) := by
    rw [stopAtTime_verdict, decide_eq_false (by norm_num)]
  have c3 : StopAtTime 2 (2 + 1) [3] = (true, none) := by
    rw [stopAtTime_verdict, decide_eq_true (by norm_num)]
  simp only [StandardSolver.Solve, solver0]
  rw [show (3 : ℕ) = 2 + 1 from rfl, solveLoop_succ_cont e1 c1]
  norm_num
  rw [show (2 : ℕ) = 1 + 1 from rfl, solveLoop_succ_cont e2 c2]
  norm_num
  rw [show (1 : ℕ) = 0 + 1 from rfl, solveLoop_succ_stop e3 c3]
  norm_num

/-- Canonical failing concrete run: the derivative fails at t = 2, the run
stops with count 2 and error "boom", recording nothing for the failed step. -/
theorem failEval :
    solver0.Solve (some fboom) 0 [0] 1 (StopAtTime 10) 3
      = ([.record 0 [0], .record 1 [1], .control 1 [1] false none,
          .record 2 [2], .control 2 [2] false none],
         solver0, .err 2 "boom") := by
  have e1 : eulerIteration fboom 0 [0] 1 = Except.ok [1] := by
    rw [euler_step_ok (show fboom 0 [0] = Except.ok [1] by norm_num [fboom])]
    norm_num
  have e2 : eulerIteration fboom 1 [1] 1 = Except.ok [2] := by
    rw [euler_step_ok (show fboom 1 [1] = Except.ok [1] by norm_num [fboom])]
    norm_num
  have e3 : eulerIteration fboom 2 [2] 1 = Except.error "boom" := by
    unfold eulerIteration
    rw [show fboom 2 [2] = Except.error "boom" by norm_num [fboom]]
  have c1 : StopAtTime 10 (0 + 1) [1] = (false, none) := by
    rw [stopAtTime_verdict, decide_eq_false (by norm_num)]
  have c2 : StopAtTime 10 (1 + 1) [2] = (false, none) := by
    rw [stopAtTime_verdict, decide_eq_false (by norm_num)]
  simp only [StandardSolver.Solve, solver0]
  rw [show (3 : ℕ) = 2 + 1 from rfl, solveLoop_succ_cont e1 c1]
  norm_num
  rw [show (2 : ℕ) = 1 + 1 from rfl, solveLoop_succ_cont e2 c2]
  norm_num
  rw [show (1 : ℕ) = 0 + 1 from rfl, solveLoop_succ_err e3]

/-- Witness for `solve_success_result` at the canonical successful run. -/
theorem solve_success_result_witness :
    (recordsOf [Ev.record 0 [0], Ev.record 1 [1], Ev.control 1 [1] false none,
        Ev.record 2 [2], Ev.control 2 [2] false none,
        Ev.record 3 [3], Ev.control 3 [3] true none]).length = 2 + 2 ∧
    (StandardSolver.mk 2 [2] eulerIteration).Result
      = ((StandardSolver.mk 2 [2] eulerIteration).t,
         (StandardSolver.mk 2 [2] eulerIteration).X) ∧
    (StandardSolver.mk 2 [2] eulerIteration).t = 0 + ((2 : ℕ) : ℚ) * 1 ∧
    (recordsOf [Ev.record 0 [0], Ev.record 1 [1], Ev.control 1 [1] false none,
        Ev.record 2 [2], Ev.control 2 [2] false none,
        Ev.record 3 [3], Ev.control 3 [3] true none]).getD 2 default
      = ⟨(StandardSolver.mk 2 [2] eulerIteration).t,
         (StandardSolver.mk 2 [2] eulerIteration).X⟩ ∧
    ((recordsOf [Ev.record 0 [0], Ev.record 1 [1], Ev.control 1 [1] false none,
        Ev.record 2 [2], Ev.control 2 [2] false none,
        Ev.record 3 [3], Ev.control 3 [3] true none]).getD (2 + 1) default).time
      = 0 + (((2 : ℕ) : ℚ) + 1) * 1 :=
  solve_success_result solver0 fone 0 [0] 1 (StopAtTime 2) 3 _ _ 2 runEval

/-- C9: a `Solve` call that returns a non-nil error leaves the solver state
untouched: the solver after the call is the solver before it, so `Result()`
still reflects the values held before the failed run. -/
theorem solve_error_keeps_state (solver : StandardSolver) (f : Option Function) (t0 : ℚ)
    (X0 : Vec) (h : ℚ) (c : Controller) (fuel : Nat) (evs : List Ev)
    (s2 : StandardSolver) (n : Nat) (e : String)
    (hrun : solver.Solve f t0 X0 h c fuel = (evs, s2, .err n e)) :
    s2 = solver ∧ s2.Result = solver.Result := by
  have hs2 : s2 = solver := by
    cases f with
    | none =>
      simp only [StandardSolver.Solve, Prod.mk.injEq] at hrun
      exact hrun.2.1.symm
    | some f =>
      simp only [StandardSolver.Solve] at hrun
      rcases hloop : solveLoop solver.iteration f c h fuel t0 X0 0 with ⟨evs2, res⟩
      rw [hloop] at hrun
      cases res with
      | finished n2 tm Xm => simp at hrun
      | failed n2 e2 =>
        simp only [Prod.mk.injEq] at hrun
        exact hrun.2.1.symm
      | outOfFuel => simp at hrun
  exact ⟨hs2, by rw [hs2]⟩

/-- Witness for `solve_error_keeps_state` at the canonical failing run. -/
theorem solve_error_keeps_state_witness :
    solver0 = solver0 ∧ solver0.Result = solver0.Result :=
  solve_error_keeps_state solver0 (some fboom) 0 [0] 1 (StopAtTime 10) 3 _ solver0 2 "boom"
    failEval

/-- Sample times of a full `Solve` trace (initial sample plus loop records):
entry `i` of the recorded series is at time `t0 + i*h`. -/
theorem cons_series_times (iter : Iteration) (f : Function) (c : Controller) (h : ℚ)
    (fuel : Nat) (t0 : ℚ) (X0 : Vec) (evs2 : List Ev) (res : LoopResult)
    (hloop : solveLoop iter f c h fuel t0 X0 0 = (evs2, res)) :
    ∀ i, i < (recordsOf (Ev.record t0 X0 :: evs2)).length →
      ((recordsOf (Ev.record t0 X0 :: evs2)).getD i default).time = t0 + (i : ℚ) * h := by
  have hrecs : recordsOf (Ev.record t0 X0 :: evs2) = TimeData.mk t0 X0 :: recordsOf evs2 := by
    simp [recordsOf]
  intro i hi
  rw [hrecs] at hi ⊢
  cases i with
  | zero => simp
  | succ j =>
    rw [List.getD_cons_succ]
    simp only [List.length_cons, Nat.add_lt_add_iff_right] at hi
    have hb : j < (recordsOf (solveLoop iter f c h fuel t0 X0 0).1).length := by
      rw [hloop]
      exact hi
    have h1 := solveLoop_rec_times iter f c h fuel t0 X0 0 j hb
    rw [hloop] at h1
    have h2 : ((recordsOf evs2).getD j default).time = t0 + ((j : ℚ) + 1) * h := h1
    rw [h2]
    push_cast
    ring

/-- C3: when the controller never reports an error and `Solve` returns the
error `e` with count `n`, the failure came from the derivative: the iteration
step failed when applied to the last recorded state, the series holds exactly
the initial sample plus the `n` committed steps (nothing for the failing
step), and every recorded time is `t0 + i*h` with `i ≤ n`. -/
theorem solve_derivative_failure (solver : StandardSolver) (f : Function) (t0 : ℚ)
    (X0 : Vec) (h : ℚ) (c : Controller) (fuel : Nat) (evs : List Ev)
    (s2 : StandardSolver) (n : Nat) (e : String)
    (hcerr : ∀ t X, (c t X).2 = none)
    (hrun : solver.Solve (some f) t0 X0 h c fuel = (evs, s2, .err n e)) :
    (recordsOf evs).length = n + 1 ∧
    solver.iteration f (t0 + (n : ℚ) * h) ((recordsOf evs).getD n default).state h
      = Except.error e ∧
    (∀ i, i < (recordsOf evs).length →
      ((recordsOf evs).getD i default).time = t0 + (i : ℚ) * h) := by
  simp only [StandardSolver.Solve] at hrun
  rcases hloop : solveLoop solver.iteration f c h fuel t0 X0 0 with ⟨evs2, res⟩
  rw [hloop] at hrun
  cases res with
  | finished n2 tm Xm => simp at hrun
  | outOfFuel => simp at hrun
  | failed n2 e2 =>
    simp only [Prod.mk.injEq, Outcome.err.injEq] at hrun
    obtain ⟨hevs, hs2, hn, he⟩ := hrun
    subst hevs
    obtain ⟨-, hcase⟩ := solveLoop_failed solver.iteration f c h fuel t0 X0 0 evs2 n2 e2 hloop
    simp only [Nat.sub_zero] at hcase
    have hrecs : recordsOf (Ev.record t0 X0 :: evs2) = TimeData.mk t0 X0 :: recordsOf evs2 := by
      simp [recordsOf]
    rcases hcase with ⟨hlen, hiter⟩ | ⟨hlen, sb, hctl⟩
    · rw [hn] at hlen hiter
      rw [he] at hiter
      refine ⟨?_, ?_, ?_⟩
      · rw [hrecs]
        simp [hlen]
      · rw [hrecs]
        exact hiter
      · exact cons_series_times solver.iteration f c h fuel t0 X0 evs2 (.failed n2 e2) hloop
    · exfalso
      have := hcerr (t0 + ((n2 + 1 : ℕ) : ℚ) * h) ((recordsOf evs2).getD n2 default).state
      rw [hctl] at this
      simp at this

/-- Witness for `solve_derivative_failure` at the canonical failing run. -/
theorem solve_derivative_failure_witness :
    (recordsOf [Ev.record 0 [0], Ev.record 1 [1], Ev.control 1 [1] false none,
        Ev.record 2 [2], Ev.control 2 [2] false none]).length = 2 + 1 ∧
    solver0.iteration fboom (0 + ((2 : ℕ) : ℚ) * 1)
        ((recordsOf [Ev.record 0 [0], Ev.record 1 [1], Ev.control 1 [1] false none,
          Ev.record 2 [2], Ev.control 2 [2] false none]).getD 2 default).state 1
      = Except.error "boom" ∧
    (∀ i, i < (recordsOf [Ev.record 0 [0], Ev.record 1 [1], Ev.control 1 [1] false none,
        Ev.record 2 [2], Ev.control 2 [2] false none]).length →
      ((recordsOf [Ev.record 0 [0], Ev.record 1 [1], Ev.control 1 [1] false none,
          Ev.record 2 [2], Ev.control 2 [2] false none]).getD i default).time
        = 0 + (i : ℚ) * 1) :=
  solve_derivative_failure solver0 fboom 0 [0] 1 (StopAtTime 10) 3 _ solver0 2 "boom"
    (fun t X => stopAtTime_err_none 10 t X) failEval

/-- C7: for a `Solve` call with non-nil `f` whose first iteration step
succeeds with `X1`, the trace starts with the record of `(t0, X0)` (so the
initial sample is recorded before any controller evaluation), the first
controller evaluation is at `(t0 + h, X1)`, and a second sample `(t0 + h, X1)`
is recorded — whatever the controller would answer at `(t0, X0)` or at
`(t0 + h, X1)`. -/
theorem solve_initial_record_first (solver : StandardSolver) (f : Function) (t0 : ℚ)
    (X0 : Vec) (h : ℚ) (c : Controller) (fuel : Nat) (X1 : Vec)
    (hfuel : 0 < fuel) (hstep : solver.iteration f t0 X0 h = Except.ok X1) :
    ((solver.Solve (some f) t0 X0 h c fuel).1).head? = some (.record t0 X0) ∧
    (controlsOf (solver.Solve (some f) t0 X0 h c fuel).1).head? = some (t0 + h, X1) ∧
    (recordsOf (solver.Solve (some f) t0 X0 h c fuel).1).getD 0 default = ⟨t0, X0⟩ ∧
    (recordsOf (solver.Solve (some f) t0 X0 h c fuel).1).getD 1 default = ⟨t0 + h, X1⟩ ∧
    2 ≤ (recordsOf (solver.Solve (some f) t0 X0 h c fuel).1).length := by
  obtain ⟨fuel2, rfl⟩ : ∃ k, fuel = k + 1 := ⟨fuel - 1, by omega⟩
  simp only [StandardSolver.Solve]
  rcases hc1 : c (t0 + h) X1 with ⟨stop, err⟩
  cases err with
  | some e =>
    rw [solveLoop_succ_ctlerr hstep hc1]
    simp [recordsOf, controlsOf]
  | none =>
    cases stop with
    | true =>
      rw [solveLoop_succ_stop hstep hc1]
      simp [recordsOf, controlsOf]
    | false =>
      rw [solveLoop_succ_cont hstep hc1]
      rcases hrest : solveLoop solver.iteration f c h fuel2 (t0 + h) X1 1 with ⟨evs2, res⟩
      cases res <;> simp [recordsOf, controlsOf]

/-- Witness for `solve_initial_record_first`: a controller that stops at every
sample still sees the initial record first and a second sample at t0 + h. -/
theorem solve_initial_record_first_witness :
    ((solver0.Solve (some fone) 0 [0] 1 (fun _ _ => (true, none)) 3).1).head?
        = some (.record 0 [0]) ∧
    (controlsOf (solver0.Solve (some fone) 0 [0] 1 (fun _ _ => (true, none)) 3).1).head?
        = some (0 + 1, [1]) ∧
    (recordsOf (solver0.Solve (some fone) 0 [0] 1 (fun _ _ => (true, none)) 3).1).getD 0
        default = ⟨0, [0]⟩ ∧
    (recordsOf (solver0.Solve (some fone) 0 [0] 1 (fun _ _ => (true, none)) 3).1).getD 1
        default = ⟨0 + 1, [1]⟩ ∧
    2 ≤ (recordsOf (solver0.Solve (some fone) 0 [0] 1 (fun _ _ => (true, none)) 3).1).length :=
  solve_initial_record_first solver0 fone 0 [0] 1 (fun _ _ => (true, none)) 3 [1]
    (by norm_num)
    (by
      show eulerIteration fone 0 [0] 1 = Except.ok [1]
      rw [euler_step_ok (show fone 0 [0] = Except.ok [1] from rfl)]
      norm_num)

/-- C8: for positive step size, the series accumulated by a
`RecorderTimeSeries` starting empty over any `Solve` run has strictly
increasing times (hence `series[i].t ≤ series[j].t` for `i < j`). -/
theorem solve_series_strict_mono (solver : StandardSolver) (f : Option Function) (t0 : ℚ)
    (X0 : Vec) (h : ℚ) (c : Controller) (fuel : Nat) (hh : 0 < h) :
    List.Pairwise (· < ·)
      ((recorderTimeSeriesRun [] (solver.Solve f t0 X0 h c fuel).1).map TimeData.time) := by
  cases f with
  | none => simp [StandardSolver.Solve, recorderTimeSeriesRun, recordsOf]
  | some f =>
    rcases hloop : solveLoop solver.iteration f c h fuel t0 X0 0 with ⟨evs2, res⟩
    have hevs : (solver.Solve (some f) t0 X0 h c fuel).1 = Ev.record t0 X0 :: evs2 := by
      simp only [StandardSolver.Solve]
      rw [hloop]
      cases res <;> rfl
    rw [hevs]
    have htimes := cons_series_times solver.iteration f c h fuel t0 X0 evs2 res hloop
    have hrun0 : recorderTimeSeriesRun [] (Ev.record t0 X0 :: evs2)
        = recordsOf (Ev.record t0 X0 :: evs2) := by
      simp [recorderTimeSeriesRun]
    rw [hrun0, List.pairwise_map, List.pairwise_iff_getElem]
    intro i j hi hj hij
    have h1 : ((recordsOf (Ev.record t0 X0 :: evs2)).getD i default).time
        = t0 + (i : ℚ) * h := htimes i hi
    have h2 : ((recordsOf (Ev.record t0 X0 :: evs2)).getD j default).time
        = t0 + (j : ℚ) * h := htimes j hj
    rw [List.getD_eq_getElem _ default hi] at h1
    rw [List.getD_eq_getElem _ default hj] at h2
    rw [h1, h2]
    have hij2 : (i : ℚ) < (j : ℚ) := by exact_mod_cast hij
    have := mul_lt_mul_of_pos_right hij2 hh
    linarith

/-- Witness for `solve_series_strict_mono` at the canonical successful run. -/
theorem solve_series_strict_mono_witness :
    List.Pairwise (· < ·)
      ((recorderTimeSeriesRun [] ((solver0.Solve (some fone) 0 [0] 1 (StopAtTime 2) 3).1)).map
        TimeData.time) :=
  solve_series_strict_mono solver0 (some fone) 0 [0] 1 (StopAtTime 2) 3 (by norm_num)

/-- C2 (amended): a `StopAtTime(tmax)` run with positive step `h`,
`t0 ≤ tmax`, a never-failing iteration and enough fuel succeeds with count
`stepsUntil t0 tmax h - 1`; the recorded series has `stepsUntil t0 tmax h + 1`
entries at times `t0 + i*h`; the final recorded time `t0 + stepsUntil*h` (the
stop-triggering sample, which IS recorded) exceeds `tmax` by at least the
`1e-8` tolerance and is below `tmax + h + 1e-8`; and when the stop boundary
`tmax` is not within the tolerance of a grid point, the series length is
`⌊(tmax−t0)/h⌋ + 2`. -/
theorem solve_stopAtTime_run (solver : StandardSolver) (f : Function) (t0 : ℚ) (X0 : Vec)
    (h tmax : ℚ) (fuel : Nat) (hh : 0 < h) (ht0 : t0 ≤ tmax)
    (hf : ∀ t X, ∃ Y, solver.iteration f t X h = Except.ok Y)
    (hfuel : stepsUntil t0 tmax h ≤ fuel) :
    ∃ evs s2,
      solver.Solve (some f) t0 X0 h (StopAtTime tmax) fuel
        = (evs, s2, .ok (stepsUntil t0 tmax h - 1)) ∧
      (recordsOf evs).length = stepsUntil t0 tmax h + 1 ∧
      (∀ i, i < (recordsOf evs).length →
        ((recordsOf evs).getD i default).time = t0 + (i : ℚ) * h) ∧
      tmax + 1 / 100000000 ≤ t0 + ((stepsUntil t0 tmax h : ℕ) : ℚ) * h ∧
      t0 + ((stepsUntil t0 tmax h : ℕ) : ℚ) * h < tmax + h + 1 / 100000000 ∧
      (tmax - t0 + 1 / 100000000 ≤ ((⌊(tmax - t0) / h⌋ : ℤ) + 1) * h →
        (((recordsOf evs).length : ℤ) = ⌊(tmax - t0) / h⌋ + 2)) := by
  have htm : t0 < tmax + 1 / 100000000 := by linarith
  obtain ⟨evs2, t2, X2, hloop⟩ :=
    solveLoop_stopAtTime solver.iteration f h tmax hh hf fuel t0 X0 0 htm hfuel
  have hKpos : 1 ≤ stepsUntil t0 tmax h := stepsUntil_pos hh htm
  have hceil0 : (0 : ℤ) < ⌈(tmax + 1 / 100000000 - t0) / h⌉ :=
    Int.ceil_pos.mpr (div_pos (by linarith) hh)
  have hcast : ((stepsUntil t0 tmax h : ℕ) : ℚ)
      = ((⌈(tmax + 1 / 100000000 - t0) / h⌉ : ℤ) : ℚ) := by
    unfold stepsUntil
    rw [show ((⌈(tmax + 1 / 100000000 - t0) / h⌉.toNat : ℕ) : ℚ)
        = ((⌈(tmax + 1 / 100000000 - t0) / h⌉.toNat : ℤ) : ℚ) by push_cast; ring]
    rw [Int.toNat_of_nonneg (le_of_lt hceil0)]
  obtain ⟨-, hlen2, ht2, -⟩ := solveLoop_finished solver.iteration f (StopAtTime tmax) h
    fuel t0 X0 0 evs2 (0 + (stepsUntil t0 tmax h - 1)) t2 X2 hloop
  have hlen : (recordsOf evs2).length = stepsUntil t0 tmax h := by omega
  refine ⟨Ev.record t0 X0 :: evs2, ⟨t2, X2, solver.iteration⟩, ?_, ?_, ?_, ?_, ?_, ?_⟩
  · simp only [StandardSolver.Solve]
    rw [hloop]
    rw [show 0 + (stepsUntil t0 tmax h - 1) = stepsUntil t0 tmax h - 1 from by omega]
  · simp only [recordsOf, List.filterMap_cons]
    simp only [recordsOf] at hlen
    simp [hlen]
  · exact cons_series_times solver.iteration f (StopAtTime tmax) h fuel t0 X0 evs2 _ hloop
  · have hle : (tmax + 1 / 100000000 - t0) / h
        ≤ ((⌈(tmax + 1 / 100000000 - t0) / h⌉ : ℤ) : ℚ) := Int.le_ceil _
    rw [div_le_iff₀ hh] at hle
    rw [hcast]
    linarith
  · have hlt : ((⌈(tmax + 1 / 100000000 - t0) / h⌉ : ℤ) : ℚ)
        < (tmax + 1 / 100000000 - t0) / h + 1 := Int.ceil_lt_add_one _
    have hlt2 : (((⌈(tmax + 1 / 100000000 - t0) / h⌉ : ℤ) : ℚ) - 1) * h
        < tmax + 1 / 100000000 - t0 := by
      have hd : (((⌈(tmax + 1 / 100000000 - t0) / h⌉ : ℤ) : ℚ) - 1)
          < (tmax + 1 / 100000000 - t0) / h := by linarith
      calc (((⌈(tmax + 1 / 100000000 - t0) / h⌉ : ℤ) : ℚ) - 1) * h
          < ((tmax + 1 / 100000000 - t0) / h) * h := mul_lt_mul_of_pos_right hd hh
        _ = tmax + 1 / 100000000 - t0 := div_mul_cancel₀ _ (ne_of_gt hh)
    rw [hcast]
    nlinarith [hlt2]
  · intro hcorner
    have hflle : ((⌊(tmax - t0) / h⌋ : ℤ) : ℚ) ≤ (tmax - t0) / h := Int.floor_le _
    have hceq : ⌈(tmax + 1 / 100000000 - t0) / h⌉ = ⌊(tmax - t0) / h⌋ + 1 := by
      rw [Int.ceil_eq_iff]
      constructor
      · push_cast
        have hstrict : (tmax - t0) / h < (tmax + 1 / 100000000 - t0) / h :=
          (div_lt_div_iff_of_pos_right hh).mpr (by linarith)
        linarith
      · push_cast
        rw [div_le_iff₀ hh]
        linarith
    have hKeq : ((stepsUntil t0 tmax h : ℕ) : ℤ) = ⌊(tmax - t0) / h⌋ + 1 := by
      unfold stepsUntil
      rw [Int.toNat_of_nonneg (le_of_lt hceil0), hceq]
    have hlencons : (recordsOf (Ev.record t0 X0 :: evs2)).length
        = stepsUntil t0 tmax h + 1 := by
      simp only [recordsOf, List.filterMap_cons]
      simp only [recordsOf] at hlen
      simp [hlen]
    rw [hlencons]
    push_cast
    push_cast at hKeq
    linarith

/-- Concrete boundary run: with tmax = 3 - 1/200000000 (within the 1e-8
tolerance below the grid point 3), the sample at t = 3 is still accepted and
the run only stops at t = 4: five samples and count 3. -/
theorem cornerEval :
    solver0.Solve (some fone) 0 [0] 1 (StopAtTime (3 - 1 / 200000000)) 5
      = ([.record 0 [0], .record 1 [1], .control 1 [1] false none,
          .record 2 [2], .control 2 [2] false none,
          .record 3 [3], .control 3 [3] false none,
          .record 4 [4], .control 4 [4] true none],
         StandardSolver.mk 3 [3] eulerIteration, .ok 3) := by
  have e1 : eulerIteration fone 0 [0] 1 = Except.ok [1] := by
    rw [euler_step_ok (show fone 0 [0] = Except.ok [1] from rfl)]
    norm_num
  have e2 : eulerIteration fone (0 + 1) [1] 1 = Except.ok [2] := by
    rw [euler_step_ok (show fone (0 + 1) [1] = Except.ok [1] from rfl)]
    norm_num
  have e3 : eulerIteration fone ((0 + 1) + 1) [2] 1 = Except.ok [3] := by
    rw [euler_step_ok (show fone ((0 + 1) + 1) [2] = Except.ok [1] from rfl)]
    norm_num
  have e4 : eulerIteration fone (((0 + 1) + 1) + 1) [3] 1 = Except.ok [4] := by
    rw [euler_step_ok (show fone (((0 + 1) + 1) + 1) [3] = Except.ok [1] from rfl)]
    norm_num
  have c1 : StopAtTime (3 - 1 / 200000000) (0 + 1) [1] = (false, none) := by
    rw [stopAtTime_verdict, decide_eq_false (by norm_num)]
  have c2 : StopAtTime (3 - 1 / 200000000) ((0 + 1) + 1) [2] = (false, none) := by
    rw [stopAtTime_verdict, decide_eq_false (by norm_num)]
  have c3 : StopAtTime (3 - 1 / 200000000) (((0 + 1) + 1) + 1) [3] = (false, none) := by
    rw [stopAtTime_verdict, decide_eq_false (by norm_num)]
  have c4 : StopAtTime (3 - 1 / 200000000) ((((0 + 1) + 1) + 1) + 1) [4] = (true, none) := by
    rw [stopAtTime_verdict, decide_eq_true (by norm_num)]
  simp only [StandardSolver.Solve, solver0]
  rw [show (5 : ℕ) = 4 + 1 from rfl, solveLoop_succ_cont e1 c1,
    show (4 : ℕ) = 3 + 1 from rfl, solveLoop_succ_cont e2 c2,
    show (3 : ℕ) = 2 + 1 from rfl, solveLoop_succ_cont e3 c3,
    show (2 : ℕ) = 1 + 1 from rfl, solveLoop_succ_stop e4 c4]
  norm_num

/-- C2 counterexample: a run meeting all of the claim's hypotheses
(StopAtTime(tmax) with tmax = 3 - 1/200000000, h = 1 > 0, t0 = 0 ≤ tmax,
empty accumulating recorder, never-failing f) refutes every clause of the
claim at once: the recorded series is [0,1,2,3,4], so its length 5 is not
floor((tmax−t0)/h) + 2 = 4, and the final recorded time 4 has
|4 − tmax| = 1 + 1/200000000 > h and exceeds tmax by far more than the
1e-8 tolerance. -/
theorem stopAtTime_boundary_counterexample :
    (recordsOf (solver0.Solve (some fone) 0 [0] 1
        (StopAtTime (3 - 1 / 200000000)) 5).1).map TimeData.time = [0, 1, 2, 3, 4] ∧
    ¬ (((recordsOf (solver0.Solve (some fone) 0 [0] 1
          (StopAtTime (3 - 1 / 200000000)) 5).1).length : ℤ)
        = ⌊(((3 : ℚ) - 1 / 200000000) - 0) / 1⌋ + 2) ∧
    ¬ (|((recordsOf (solver0.Solve (some fone) 0 [0] 1
          (StopAtTime (3 - 1 / 200000000)) 5).1).getD 4 default).time
        - ((3 : ℚ) - 1 / 200000000)| ≤ 1) ∧
    ¬ (((recordsOf (solver0.Solve (some fone) 0 [0] 1
          (StopAtTime (3 - 1 / 200000000)) 5).1).getD 4 default).time
        - ((3 : ℚ) - 1 / 200000000) ≤ 1 / 100000000) := by
  rw [cornerEval]
  have hfl : ⌊(((3 : ℚ) - 1 / 200000000) - 0) / 1⌋ = 2 := by
    rw [Int.floor_eq_iff]
    norm_num
  have hlen : (recordsOf [Ev.record 0 [0], Ev.record 1 [1], Ev.control 1 [1] false none,
      Ev.record 2 [2], Ev.control 2 [2] false none, Ev.record 3 [3],
      Ev.control 3 [3] false none, Ev.record 4 [4],
      Ev.control 4 [4] true none]).length = 5 := rfl
  have htl : ((recordsOf [Ev.record 0 [0], Ev.record 1 [1], Ev.control 1 [1] false none,
      Ev.record 2 [2], Ev.control 2 [2] false none, Ev.record 3 [3],
      Ev.control 3 [3] false none, Ev.record 4 [4],
      Ev.control 4 [4] true none]).getD 4 default).time = 4 := rfl
  refine ⟨rfl, ?_, ?_, ?_⟩
  · rw [hfl, hlen]
    norm_num
  · rw [htl, abs_of_pos (by norm_num)]
    norm_num
  · rw [htl]
    norm_num

/-- Witness for `solve_stopAtTime_run` at the canonical successful run. -/
theorem solve_stopAtTime_run_witness :
    ∃ evs s2,
      solver0.Solve (some fone) 0 [0] 1 (StopAtTime 2) 3
        = (evs, s2, .ok (stepsUntil 0 2 1 - 1)) ∧
      (recordsOf evs).length = stepsUntil 0 2 1 + 1 ∧
      (∀ i, i < (recordsOf evs).length →
        ((recordsOf evs).getD i default).time = 0 + (i : ℚ) * 1) ∧
      (2 : ℚ) + 1 / 100000000 ≤ 0 + ((stepsUntil 0 2 1 : ℕ) : ℚ) * 1 ∧
      0 + ((stepsUntil 0 2 1 : ℕ) : ℚ) * 1 < 2 + 1 + 1 / 100000000 ∧
      ((2 : ℚ) - 0 + 1 / 100000000 ≤ ((⌊((2 : ℚ) - 0) / 1⌋ : ℤ) + 1) * 1 →
        (((recordsOf evs).length : ℤ) = ⌊((2 : ℚ) - 0) / 1⌋ + 2)) :=
  solve_stopAtTime_run solver0 fone 0 [0] 1 2 3 (by norm_num) (by norm_num)
    (fun t X => ⟨_, rfl⟩)
    (by
      unfold stepsUntil
      rw [show ⌈((2 : ℚ) + 1 / 100000000 - 0) / 1⌉ = 3 from by
        rw [Int.ceil_eq_iff]
        norm_num]
      norm_num)

end DingoOde
